import Mathlib

/-!
Shallow embedding of `scripts/get_addresses.py` from gisfun/hf-data-publisher.

The embedding models:
* `fetch_pcode` — the per-key paginated fetch with retry/backoff
  (`fetchPages`, `tryPage`, `attemptOnce`);
* the semaphore-bounded concurrency of `process_range` (`Sys`, `SysStep`);
* the flatten/no-data aggregation at the end of `process_range` (`aggregate`);
* the `__main__` driver (`mainRun`, `runMain`) and key generation
  (`format06`, `pcodes`).
-/

/-- Configuration constant `CONCURRENT_REQUESTS = 25` from the source. -/
def CONCURRENT_REQUESTS : Nat := 25

/-- The per-page retry budget: `for attempt in range(4)` in the source. -/
def retryBudget : Nat := 4

/-- The parsed JSON body of a 200 response, as the source reads it:
`data.get("results", [])` and `data.get("totalNumPages", 0)`; `none` models
a missing field, for which the source substitutes the `dict.get` default. -/
structure Body (α : Type) where
  results : Option (List α)
  totalNumPages : Option Int
deriving DecidableEq, Repr

deriving instance DecidableEq for Except

/-- One response of the remote API as the fetcher observes it.
`http status body` is a completed HTTP exchange; the body is `.error ()`
when `response.json()` would raise (malformed body). `failure` models a
transport-level exception from `session.get` (timeout, connection error). -/
inductive RawResponse (α : Type) where
  | http (status : Nat) (body : Except Unit (Body α))
  | failure
deriving DecidableEq, Repr

/-- Exceptions the try-block of the source can raise. -/
inductive Exn where
  | transport
  | parse
deriving DecidableEq, Repr

/-- Result of one successful execution of the try-block body for one attempt:
advance to the next page (`break` out of the retry loop), finish the key
(`return all_results`), or retry the same page (429 / 5xx `continue`). -/
inductive InnerStep (α : Type) where
  | advance (acc : List α)
  | finish (acc : List α)
  | retry
deriving DecidableEq, Repr

/-- The try-block of the source for a single attempt, given the accumulated
records `acc` and the current `page`.  Faithful to:
status 200 → parse body (may raise), extend `all_results` when the result
list is non-empty, then compare `totalNumPages > page`; status 429 or ≥ 500
→ retry; any other status → `return all_results` unchanged; a transport
failure raises. -/
def attemptOnce {α : Type} (r : RawResponse α) (acc : List α) (page : Nat) :
    Except Exn (InnerStep α) :=
  match r with
  | .failure => .error .transport
  | .http status body =>
    if status = 200 then
      match body with
      | .error _ => .error .parse
      | .ok data =>
        let results := data.results.getD []
        let acc2 := if results.isEmpty then acc else acc ++ results
        let totalPages := data.totalNumPages.getD 0
        if (page : Int) < totalPages then .ok (.advance acc2)
        else .ok (.finish acc2)
    else if status = 429 ∨ 500 ≤ status then .ok .retry
    else .ok (.finish acc)

/-- Observable events of one fetch: the fixed per-page sleep (`asyncio.sleep(1.0)`),
a backoff sleep of `d` seconds, and a GET for a given page. -/
inductive Ev where
  | throttle
  | backoff (d : Nat)
  | request (page : Nat)
deriving DecidableEq, Repr

/-- Outcome of the inner `for attempt in range(4)` loop on one page. -/
inductive PageRes (α : Type) where
  | advance (acc : List α)
  | finish (acc : List α)
  | giveUp
deriving DecidableEq, Repr

/-- The inner retry loop of `fetch_pcode` on one page.  Arguments: the
response oracle (indexed by how many requests were issued so far), the
records accumulated before this page, the page number, the remaining
attempts, the 0-based index of the current attempt, and the request index.
Returns the trace of events, the number of requests issued, and the page
outcome.  The `.error` branch is the source's `except Exception` handler:
sleep `2 ** attempt + 1` and try again; the same backoff is used for
429/5xx.  When the attempts run out the `for`–`else` fires (`giveUp`). -/
def tryPage {α : Type} (oracle : Nat → RawResponse α) (acc : List α) (page : Nat) :
    Nat → Nat → Nat → List Ev × Nat × PageRes α
  | 0, _, _ => ([], 0, .giveUp)
  | n+1, attempt, i =>
    match attemptOnce (oracle i) acc page with
    | .ok (.advance acc2) => ([.request page], 1, .advance acc2)
    | .ok (.finish acc2) => ([.request page], 1, .finish acc2)
    | .ok .retry =>
      match tryPage oracle acc page n (attempt+1) (i+1) with
      | (t, m, s) => (.request page :: .backoff (2 ^ attempt + 1) :: t, m + 1, s)
    | .error _ =>
      match tryPage oracle acc page n (attempt+1) (i+1) with
      | (t, m, s) => (.request page :: .backoff (2 ^ attempt + 1) :: t, m + 1, s)

/-- The outer `while True` loop of `fetch_pcode`, with `fuel` bounding the
number of page iterations (the source has no such bound; `none` means the
loop did not finish within `fuel` iterations).  Each iteration sleeps 1.0
(`throttle`), runs the retry loop on the current page, and either recurses
on the next page, returns the accumulated records, or — on retry
exhaustion — breaks and returns the partial accumulation.  The result is
`Except`-typed because the caller of the Python function could in
principle observe an exception; an `.error` of the inner attempt that the
handler failed to absorb would surface here. -/
def fetchPages {α : Type} (oracle : Nat → RawResponse α) :
    Nat → Nat → Nat → List α → Option (Except Exn (List Ev × Nat × List α))
  | 0, _, _, _ => none
  | fuel+1, i, page, acc =>
    match tryPage oracle acc page retryBudget 0 i with
    | (t, m, .advance acc2) =>
      match fetchPages oracle fuel (i + m) (page+1) acc2 with
      | none => none
      | some (.error e) => some (.error e)
      | some (.ok (t2, m2, out)) => some (.ok (Ev.throttle :: t ++ t2, m + m2, out))
    | (t, m, .finish acc2) => some (.ok (Ev.throttle :: t, m, acc2))
    | (t, m, .giveUp) => some (.ok (Ev.throttle :: t, m, acc))

/-- `fetch_pcode`: start at page 1 with an empty accumulator. -/
def fetch_pcode {α : Type} (oracle : Nat → RawResponse α) (fuel : Nat) :
    Option (Except Exn (List Ev × Nat × List α)) :=
  fetchPages oracle fuel 0 1 []

/-- The pages of .request events of a trace, in order. -/
def requestsOf (t : List Ev) : List Nat :=
  t.filterMap (fun e => match e with | .request p => some p | _ => none)

/-- Phase of one fetcher task in `process_range`: not yet admitted by the
semaphore (`pending`), inside `async with semaphore` with `work` remaining
units of request/retry logic (`active`), or returned (`finished`). -/
inductive Phase where
  | pending
  | active (work : Nat)
  | finished
deriving DecidableEq, Repr

def Phase.isActive : Phase → Bool
  | .active _ => true
  | _ => false

/-- State of one run of `process_range`: the phase of each fetcher task and
the current value of the `asyncio.Semaphore` counter. -/
structure Sys where
  tasks : List Phase
  sem : Nat
deriving DecidableEq, Repr

/-- Number of fetchers currently executing their request/retry logic. -/
def activeCount (ts : List Phase) : Nat := ts.countP Phase.isActive

/-- Initial state: one pending task per key, semaphore at
`CONCURRENT_REQUESTS` (the source constructs `asyncio.Semaphore(25)`). -/
def initSys (numKeys : Nat) : Sys :=
  ⟨List.replicate numKeys Phase.pending, CONCURRENT_REQUESTS⟩

/-- Interleaved execution of `process_range`.  A pending fetcher may enter
`async with semaphore` only when the counter is positive (`acquire`), it
performs its network work only while active (`work`), and it releases the
permit exactly when it returns, successful or degraded (`release`).
`w` in `acquire` is arbitrary: how many steps a fetcher needs depends on
the responses it will see. -/
inductive SysStep : Sys → Sys → Prop where
  | acquire (s : Sys) (i w : Nat) (h : s.tasks[i]? = some .pending)
      (hsem : 0 < s.sem) :
      SysStep s ⟨s.tasks.set i (.active w), s.sem - 1⟩
  | work (s : Sys) (i w : Nat) (h : s.tasks[i]? = some (.active (w+1))) :
      SysStep s ⟨s.tasks.set i (.active w), s.sem⟩
  | release (s : Sys) (i : Nat) (h : s.tasks[i]? = some (.active 0)) :
      SysStep s ⟨s.tasks.set i .finished, s.sem + 1⟩

/-- States reachable during a run of `process_range` over `numKeys` keys. -/
def SysReachable (numKeys : Nat) (s : Sys) : Prop :=
  Relation.ReflTransGen SysStep (initSys numKeys) s

/-- The aggregation step at the end of `process_range`:
`flattened = [b for sublist in results for b in sublist]` followed by
`if not flattened: return None`. -/
def aggregate {α : Type} (results : List (List α)) : Option (List α) :=
  let flattened := results.flatten
  if flattened.isEmpty then none else some flattened

/-- What the `__main__` block reports at the end of a run. -/
inductive RunReport where
  | uploaded (records : Nat)
  | noData
deriving DecidableEq, Repr

/-- Caller-observable outcome of the `__main__` block. -/
structure RunOutcome where
  report : RunReport
  exported : Bool
  exitCode : Nat
deriving DecidableEq, Repr

/-- The tail of `__main__`: `if gdf is not None and not gdf.empty:` writes
the parquet file, uploads it and prints the success line; otherwise prints
“No valid data found”.  The script never calls `sys.exit`, so on both
branches the interpreter exits with status 0. -/
def mainRun {α : Type} (gdf : Option (List α)) : RunOutcome :=
  match gdf with
  | some l => if ¬ l.isEmpty then ⟨.uploaded l.length, true, 0⟩
              else ⟨.noData, false, 0⟩
  | none => ⟨.noData, false, 0⟩

/-- Python `range(start, stop)` over integers. -/
def intRange (start stop : Int) : List Int :=
  (List.range (stop - start).toNat).map (fun k : Nat => start + (k : Int))

/-- Python `f"{p:06d}"`: decimal representation padded with zeros to a
minimum total width of 6; for a negative number the sign comes first and
counts towards the width. -/
def format06 (p : Int) : String :=
  if p < 0 then
    "-" ++ String.mk (List.replicate (5 - (Nat.repr p.natAbs).length) '0')
        ++ Nat.repr p.natAbs
  else
    String.mk (List.replicate (6 - (Nat.repr p.toNat).length) '0')
        ++ Nat.repr p.toNat

/-- `pcodes = [f"{p:06d}" for p in range(start, end + 1)]`. -/
def pcodes (start stop : Int) : List String :=
  (intRange start (stop + 1)).map format06

/-- A string that is exactly six decimal digits. -/
def sixDigitKey (s : String) : Bool :=
  s.length = 6 && s.data.all Char.isDigit

/-- Observable outcome of a whole run of the script's `__main__` block. -/
structure DriverRun where
  keys : List String
  outcome : RunOutcome
deriving DecidableEq, Repr

/-- The `__main__` block end to end, with the network abstracted by a map
from key to the record list its fetcher returns: parse the two integer
arguments, run `process_range` (which unconditionally generates the key
list and fans out the fetchers — the source performs no validation of
`start ≤ end`), then branch on the aggregate. -/
def runMain {α : Type} (start stop : Int) (fetched : String → List α) : DriverRun :=
  let keys := pcodes start stop
  let perKey := keys.map fetched
  ⟨keys, mainRun (aggregate perKey)⟩

/-- The shape of an attempt's outcome, forgetting the accumulated data. -/
inductive StepTag where
  | advance
  | finish
  | retry
  | raised
deriving DecidableEq, Repr

def stepTag {α : Type} (r : Except Exn (InnerStep α)) : StepTag :=
  match r with
  | .ok (.advance _) => .advance
  | .ok (.finish _) => .finish
  | .ok .retry => .retry
  | .error _ => .raised

/-- Oracle for a key whose every request answers 200 with a fixed declared
total page count `T`; the `i`-th request (0-based) carries results `rs i`. -/
def pagesOracle {α : Type} (T : Nat) (rs : Nat → List α) : Nat → RawResponse α :=
  fun i => .http 200 (.ok ⟨some (rs i), some (T : Int)⟩)

/-- Expected trace of an all-success fetch over pages `p, p+1, …, p+d`. -/
def okTrace (p : Nat) : Nat → List Ev
  | 0 => [.throttle, .request p]
  | d+1 => .throttle :: .request p :: okTrace (p+1) d

/-- Concatenation of the per-request result lists `rs i, …, rs (i+d)`. -/
def segConcat {α : Type} (rs : Nat → List α) (i : Nat) : Nat → List α
  | 0 => rs i
  | d+1 => rs i ++ segConcat rs (i+1) d

/-- Responses the source classifies as transient: HTTP 429, any 5xx, a
transport failure, or a 200 whose body fails to parse. -/
def transient {α : Type} : RawResponse α → Bool
  | .failure => true
  | .http s body =>
    if s = 200 then
      match body with
      | .error _ => true
      | .ok _ => false
    else decide (s = 429 ∨ 500 ≤ s)

/-- Concrete oracle demonstrating that the retry budget resets per page:
requests 0–2 fail transiently (429, 5xx with malformed body, transport
failure), request 3 succeeds with `totalNumPages = 2`, requests 4–6 fail
transiently again, request 7 succeeds and ends the key. -/
def resetOracle : Nat → RawResponse Nat := fun i =>
  if i = 3 then .http 200 (.ok ⟨some [10], some 2⟩)
  else if i = 7 then .http 200 (.ok ⟨some [20], some 2⟩)
  else if i % 3 = 0 then .http 429 (.ok ⟨none, none⟩)
  else if i % 3 = 1 then .http 503 (.error ())
  else .failure

/-- The total page count a response declares (0 when absent or unusable,
matching `data.get("totalNumPages", 0)`). -/
def reportedTotal {α : Type} : RawResponse α → Int
  | .http _ (.ok b) => b.totalNumPages.getD 0
  | _ => 0

/-- An adversarial response stream: every request succeeds with HTTP 200,
no results, and `totalNumPages` always one more than the page being
fetched, so the loop advances forever. -/
def advOracle : Nat → RawResponse Nat :=
  fun i => .http 200 (.ok ⟨some [], some ((i : Int) + 2)⟩)

/-- Value of a decimal digit character. -/
def dval (c : Char) : Nat := c.toNat - 48

/-- Decimal value of a character list read most-significant first. -/
def sval (l : List Char) : Nat := l.foldl (fun a c => 10 * a + dval c) 0

/-! ## Theorems -/

example :
    fetch_pcode (fun _ => RawResponse.http 200 (.ok ⟨some [7], some 1⟩)) 5
      = some (.ok ([Ev.throttle, Ev.request 1], 1, ([7] : List Nat))) := by
  decide

example : pcodes 2 4 = ["000002", "000003", "000004"] := by decide

example : runMain 5 3 (fun _ => ([] : List Nat)) =
    ⟨[], ⟨.noData, false, 0⟩⟩ := by decide

example : format06 (-5) = "-00005" := by decide

example : format06 1000000 = "1000000" := by decide

/-! ## C2: the fetcher never raises to its caller -/

/-- **C2**: for every key, every response oracle (arbitrary statuses,
transport failures and malformed bodies) and every number of page
iterations actually executed, `fetch_pcode` never surfaces an exception:
whenever the loop finishes it hands back a (possibly empty) record list.
All failure is absorbed by the retry loop's handler and the early-return
paths. -/
theorem C2_fetch_pcode_never_raises {α : Type} (oracle : Nat → RawResponse α)
    (fuel i page : Nat) (acc : List α) (e : Exn) :
    fetchPages oracle fuel i page acc ≠ some (.error e) := by
  induction fuel generalizing i page acc e with
  | zero => simp [fetchPages]
  | succ n ih =>
    simp only [fetchPages]
    rcases htp : tryPage oracle acc page retryBudget 0 i with ⟨t, m, pr⟩
    cases pr with
    | advance acc2 =>
      cases hrec : fetchPages oracle n (i + m) (page + 1) acc2 with
      | none => simp [hrec]
      | some r =>
        cases r with
        | error e2 =>
          exact absurd hrec (ih (i + m) (page + 1) acc2 e2)
        | ok v => simp [hrec]
    | finish acc2 => simp
    | giveUp => simp

/-- Witness for C2 at a concrete oracle made only of failures. -/
theorem C2_witness :
    fetchPages (fun _ => (RawResponse.failure : RawResponse Nat)) 1 0 1 []
      ≠ some (.error .transport) :=
  C2_fetch_pcode_never_raises (fun _ => RawResponse.failure) 1 0 1 [] .transport

/-! ## C6: aggregation flattens and signals "no data" -/

/-- **C6**: the aggregation step of `process_range` flattens the per-key
lists into one list with content and within-key order unchanged (it equals
`List.flatten`), signals `none` ("no data") exactly when every key's list
is empty, and on the spec's example `[[a,b],[],[c]]` yields `[a,b,c]`. -/
theorem C6_aggregate_spec {α : Type} (results : List (List α)) :
    (∀ flat, aggregate results = some flat → flat = results.flatten) ∧
    (aggregate results = none ↔ ∀ l ∈ results, l = []) ∧
    (∀ a b c : α, aggregate [[a, b], [], [c]] = some [a, b, c]) := by
  refine ⟨?_, ?_, ?_⟩
  · intro flat h
    by_cases hf : results.flatten.isEmpty
    · simp [aggregate, hf] at h
    · simp [aggregate, hf] at h
      exact h.symm
  · constructor
    · intro h
      by_cases hf : results.flatten.isEmpty
      · exact List.flatten_eq_nil_iff.mp (List.isEmpty_iff.mp hf)
      · simp [aggregate, hf] at h
    · intro hall
      simp [aggregate, List.flatten_eq_nil_iff.mpr hall]
  · intro a b c
    rfl

/-- Witness for C6 at concrete inputs. -/
theorem C6_witness :
    (([0, 1] : List Nat) = ([[0], [1]] : List (List Nat)).flatten) ∧
    aggregate ([[], []] : List (List Nat)) = none :=
  ⟨(C6_aggregate_spec [[0], [1]]).1 [0, 1] rfl,
   (C6_aggregate_spec [[], []]).2.1.mpr (by decide)⟩

/-! ## C7: exit status vs. export (corrected) -/

/-- **C7** counterexample: on an empty aggregate the process still exits
with status 0 (the script never calls `sys.exit`), while performing no
export — so "exits indicating success exactly when a non-empty export
occurred" is false. -/
theorem C7_cex :
    ¬ (((mainRun (none : Option (List Nat))).exitCode = 0) ↔
        (mainRun (none : Option (List Nat))).exported = true) := by
  decide

/-- **C7** amended: the exit status is 0 on every completed run, whether or
not anything was exported; what distinguishes the two cases is the printed
report and the export action: export happens iff the aggregate is present
and non-empty, and exactly otherwise the "no data" report is printed. -/
theorem C7_mainRun_spec {α : Type} (gdf : Option (List α)) :
    (mainRun gdf).exitCode = 0 ∧
    ((mainRun gdf).exported = true ↔ ∃ l, gdf = some l ∧ l ≠ []) ∧
    ((mainRun gdf).report = .noData ↔ (mainRun gdf).exported = false) := by
  cases gdf with
  | none => simp [mainRun]
  | some l =>
    cases l with
    | nil => simp [mainRun]
    | cons x xs => simp [mainRun]

/-- Witness for C7 at a concrete non-empty aggregate. -/
theorem C7_witness :
    (mainRun (some ([5] : List Nat))).exitCode = 0 ∧
    (mainRun (some ([5] : List Nat))).exported = true :=
  ⟨(C7_mainRun_spec (some [5])).1,
   (C7_mainRun_spec (some [5])).2.1.mpr ⟨[5], rfl, by decide⟩⟩

/-! ## C8: no start ≤ end validation (corrected) -/

/-- **C8** counterexample: the input `start = 1 > end = 0` is not rejected:
the driver still generates the (empty) key list, runs the controller and
completes with the same normal no-data outcome as the valid range
`[0, 0]` with no records — there is no validation code path. -/
theorem C8_cex :
    (runMain 1 0 (fun _ => ([] : List Nat))).outcome =
      (runMain 0 0 (fun _ => ([] : List Nat))).outcome ∧
    (runMain 1 0 (fun _ => ([] : List Nat))).keys = [] ∧
    (runMain 1 0 (fun _ => ([] : List Nat))).outcome.exitCode = 0 := by
  decide

/-- **C8** amended: the driver performs no `start ≤ end` validation; for
every input with `start > end` it proceeds: the generated key sequence is
empty, the controller runs zero fetchers and the run completes normally,
reporting "no data" with exit status 0. -/
theorem C8_no_validation {α : Type} (start stop : Int)
    (fetched : String → List α) (h : stop < start) :
    (runMain start stop fetched).keys = [] ∧
    (runMain start stop fetched).outcome = ⟨.noData, false, 0⟩ := by
  have hz : (stop + 1 - start).toNat = 0 := by omega
  have hkeys : pcodes start stop = [] := by
    simp [pcodes, intRange, hz]
  refine ⟨hkeys, ?_⟩
  simp [runMain, hkeys, aggregate, mainRun]

/-- Witness for C8's amended statement at `start = 1, end = 0`. -/
theorem C8_witness :
    (runMain 1 0 (fun _ => ([] : List Nat))).keys = [] ∧
    (runMain 1 0 (fun _ => ([] : List Nat))).outcome = ⟨.noData, false, 0⟩ :=
  C8_no_validation 1 0 (fun _ => []) (by decide)

/-! ## C1: the semaphore bounds concurrently-active fetchers -/

/-- Replacing the element at a present index shifts `countP` by the
indicator difference of the old and new elements. -/
theorem countP_set_balance {α : Type} (f : α → Bool) :
    ∀ (l : List α) (i : Nat) (a b : α), l[i]? = some a →
      (l.set i b).countP f + (if f a then 1 else 0)
        = l.countP f + (if f b then 1 else 0) := by
  intro l
  induction l with
  | nil => intro i a b h; simp at h
  | cons hd tl ih =>
    intro i a b h
    cases i with
    | zero =>
      simp only [List.getElem?_cons_zero, Option.some.injEq] at h
      subst h
      simp only [List.set_cons_zero, List.countP_cons]
      by_cases hfa : f hd <;> by_cases hfb : f b <;> simp [hfa, hfb]
    | succ j =>
      simp only [List.getElem?_cons_succ] at h
      simp only [List.set_cons_succ, List.countP_cons]
      have := ih j a b h
      by_cases hfh : f hd <;> simp [hfh] <;> omega

/-- Inductive invariant of `process_range`: active fetchers plus the
semaphore counter always equal the configured limit. -/
theorem reachable_active_add_sem (n : Nat) (s : Sys) (h : SysReachable n s) :
    activeCount s.tasks + s.sem = CONCURRENT_REQUESTS := by
  induction h with
  | refl =>
    have hz : activeCount (List.replicate n Phase.pending) = 0 := by
      simp only [activeCount, List.countP_eq_zero]
      intro a ha
      rw [List.eq_of_mem_replicate ha]
      simp [Phase.isActive]
    simp [initSys, hz]
  | @tail b c hab hstep ih =>
    cases hstep with
    | acquire i w h hsem =>
      have hb := countP_set_balance Phase.isActive b.tasks i
        Phase.pending (Phase.active w) h
      simp only [Phase.isActive] at hb
      simp at hb
      simp only [activeCount] at ih ⊢
      omega
    | work i w h =>
      have hb := countP_set_balance Phase.isActive b.tasks i
        (Phase.active (w+1)) (Phase.active w) h
      simp only [Phase.isActive] at hb
      simp at hb
      simp only [activeCount] at ih ⊢
      omega
    | release i h =>
      have hb := countP_set_balance Phase.isActive b.tasks i
        (Phase.active 0) Phase.finished h
      simp only [Phase.isActive] at hb
      simp at hb
      simp only [activeCount] at ih ⊢
      omega

/-- **C1**: in every state reachable during a run of `process_range` over
any key set, the number of fetchers concurrently executing their
request/retry logic never exceeds the configured concurrency limit, 25: a
fetcher becomes active only by taking a permit from the semaphore and
gives it back exactly when it returns. -/
theorem C1_concurrency_bounded (n : Nat) (s : Sys) (h : SysReachable n s) :
    activeCount s.tasks ≤ CONCURRENT_REQUESTS ∧ CONCURRENT_REQUESTS = 25 := by
  have := reachable_active_add_sem n s h
  exact ⟨by omega, rfl⟩

/-- Witness for C1: a concrete reachable state with one admitted fetcher. -/
theorem C1_witness :
    activeCount ([Phase.active 2] : List Phase) ≤ CONCURRENT_REQUESTS :=
  (C1_concurrency_bounded 1 ⟨[Phase.active 2], 24⟩
    (Relation.ReflTransGen.tail Relation.ReflTransGen.refl
      (SysStep.acquire (initSys 1) 0 2 rfl (by decide)))).1

/-! ## C10: continuation is decided solely by totalNumPages -/

/-- **C10**: on HTTP 200 the decision to continue is a function of the
declared `totalNumPages` alone, never of the page's result list: (i) the
outcome shape is unchanged under any change of the result list (and of the
accumulator); (ii) a 200 page with an empty result list still advances to
the next page when `totalNumPages > page`; (iii) a 200 body lacking
`totalNumPages` (read back as 0) ends the key as complete right after that
page. -/
theorem C10_totalNumPages_decides {α : Type} :
    (∀ (rs rs' : Option (List α)) (total : Option Int) (acc acc' : List α)
        (page : Nat),
      stepTag (attemptOnce (.http 200 (.ok ⟨rs, total⟩)) acc page)
        = stepTag (attemptOnce (.http 200 (.ok ⟨rs', total⟩)) acc' page)) ∧
    (∀ (oracle : Nat → RawResponse α) (fuel i page : Nat) (acc : List α)
        (total : Int),
      oracle i = .http 200 (.ok ⟨some [], some total⟩) → (page : Int) < total →
      fetchPages oracle (fuel+1) i page acc =
        match fetchPages oracle fuel (i+1) (page+1) acc with
        | none => none
        | some (.error e) => some (.error e)
        | some (.ok (t2, m2, out)) =>
            some (.ok (Ev.throttle :: Ev.request page :: t2, 1 + m2, out))) ∧
    (∀ (oracle : Nat → RawResponse α) (fuel i page : Nat) (acc rs : List α),
      oracle i = .http 200 (.ok ⟨some rs, none⟩) →
      fetchPages oracle (fuel+1) i page acc
        = some (.ok ([.throttle, .request page], 1, acc ++ rs))) := by
  refine ⟨?_, ?_, ?_⟩
  · intro rs rs' total acc acc' page
    by_cases hlt : (page : Int) < total.getD 0 <;>
      simp [attemptOnce, stepTag, hlt]
  · intro oracle fuel i page acc total h hlt
    have hao : attemptOnce (oracle i) acc page = .ok (.advance acc) := by
      simp [h, attemptOnce, hlt]
    have htp : tryPage oracle acc page retryBudget 0 i
        = ([.request page], 1, .advance acc) := by
      rw [show retryBudget = 3 + 1 from rfl]
      simp [tryPage, hao]
    simp only [fetchPages, htp]
    cases hrec : fetchPages oracle fuel (i+1) (page+1) acc with
    | none => simp [hrec]
    | some r =>
      cases r with
      | error e => simp [hrec]
      | ok v =>
        rcases v with ⟨t2, m2, out⟩
        simp [hrec]
  · intro oracle fuel i page acc rs h
    have hnl : ¬ ((page : Int) < (Option.none : Option Int).getD 0) := by
      simp only [Option.getD]
      omega
    have hao : attemptOnce (oracle i) acc page = .ok (.finish (acc ++ rs)) := by
      cases rs with
      | nil => simp [h, attemptOnce, hnl]
      | cons x xs => simp [h, attemptOnce, hnl]
    have htp : tryPage oracle acc page retryBudget 0 i
        = ([.request page], 1, .finish (acc ++ rs)) := by
      rw [show retryBudget = 3 + 1 from rfl]
      simp [tryPage, hao]
    simp [fetchPages, htp]

/-- Witness for C10 on concrete inputs. -/
theorem C10_witness :
    stepTag (attemptOnce (.http 200 (.ok ⟨some ([] : List Nat), some 5⟩)) [] 1)
      = stepTag (attemptOnce (.http 200 (.ok ⟨some [9], some 5⟩)) [7] 1) ∧
    fetchPages (fun _ => RawResponse.http 200 (.ok ⟨some [3], none⟩)) 1 0 1 []
      = some (.ok ([.throttle, .request 1], 1, ([3] : List Nat))) :=
  ⟨C10_totalNumPages_decides.1 (some []) (some [9]) (some 5) [] [7] 1,
   C10_totalNumPages_decides.2.2
     (fun _ => RawResponse.http 200 (.ok ⟨some [3], none⟩)) 0 0 1 [] [3] rfl⟩

/-! ## C3: pagination walks all T pages in order -/

theorem append_if_isEmpty {α : Type} (acc l : List α) :
    (if l.isEmpty then acc else acc ++ l) = acc ++ l := by
  cases l <;> simp

theorem attemptOnce_200_some {α : Type} (rsl : List α) (tot : Int)
    (acc : List α) (page : Nat) :
    attemptOnce (RawResponse.http 200 (.ok ⟨some rsl, some tot⟩)) acc page
      = if (page : Int) < tot then .ok (.advance (acc ++ rsl))
        else .ok (.finish (acc ++ rsl)) := by
  by_cases hlt : (page : Int) < tot <;>
    simp [attemptOnce, append_if_isEmpty, hlt]

theorem fetchPages_pagesOracle {α : Type} (T : Nat) (rs : Nat → List α) :
    ∀ (d p i fuel : Nat) (acc : List α), p + d = T → d + 1 ≤ fuel →
      fetchPages (pagesOracle T rs) fuel i p acc
        = some (.ok (okTrace p d, d + 1, acc ++ segConcat rs i d)) := by
  intro d
  induction d with
  | zero =>
    intro p i fuel acc hpT hf
    cases fuel with
    | zero => omega
    | succ f =>
      have hao : attemptOnce (pagesOracle T rs i) acc p
          = .ok (.finish (acc ++ rs i)) := by
        rw [pagesOracle, attemptOnce_200_some]
        have : ¬ ((p : Int) < (T : Int)) := by omega
        simp [this]
      have htp : tryPage (pagesOracle T rs) acc p retryBudget 0 i
          = ([.request p], 1, .finish (acc ++ rs i)) := by
        rw [show retryBudget = 3 + 1 from rfl]
        simp [tryPage, hao]
      simp [fetchPages, htp, okTrace, segConcat]
  | succ d ih =>
    intro p i fuel acc hpT hf
    cases fuel with
    | zero => omega
    | succ f =>
      have hao : attemptOnce (pagesOracle T rs i) acc p
          = .ok (.advance (acc ++ rs i)) := by
        rw [pagesOracle, attemptOnce_200_some]
        have : (p : Int) < (T : Int) := by omega
        simp [this]
      have htp : tryPage (pagesOracle T rs) acc p retryBudget 0 i
          = ([.request p], 1, .advance (acc ++ rs i)) := by
        rw [show retryBudget = 3 + 1 from rfl]
        simp [tryPage, hao]
      have hrec := ih (p+1) (i+1) f (acc ++ rs i) (by omega) (by omega)
      simp [fetchPages, htp, hrec, okTrace, segConcat]
      omega

theorem requestsOf_okTrace :
    ∀ (d p : Nat), requestsOf (okTrace p d) = List.range' p (d+1) := by
  intro d
  induction d with
  | zero => intro p; simp [requestsOf, okTrace, List.range']
  | succ d ih =>
    intro p
    simp only [okTrace, requestsOf, List.filterMap_cons]
    simp only [requestsOf] at ih
    rw [ih (p+1), List.range'_succ p (d+1) 1]

theorem segConcat_eq_flatMap {α : Type} (rs : Nat → List α) :
    ∀ (d i : Nat), segConcat rs i d = (List.range' i (d+1)).flatMap rs := by
  intro d
  induction d with
  | zero => intro i; simp [segConcat, List.range']
  | succ d ih =>
    intro i
    rw [List.range'_succ]
    simp only [segConcat, List.flatMap_cons]
    rw [ih (i+1)]

/-- **C3**: for a key whose responses are all HTTP 200 with a fixed declared
total page count `T ≥ 1`, the fetcher issues exactly `T` page requests, for
pages 1 through `T` in that order (page N+1 is requested only after page
N's response was processed — the requests of the trace are exactly
`[1, …, T]`), and returns the concatenation of the `T` pages' result lists
in page order. -/
theorem C3_pagination {α : Type} (T fuel : Nat) (rs : Nat → List α)
    (hT : 1 ≤ T) (hf : T ≤ fuel) :
    ∃ tr, fetch_pcode (pagesOracle T rs) fuel
        = some (.ok (tr, T, (List.range T).flatMap rs)) ∧
      requestsOf tr = List.range' 1 T := by
  have hT1 : T - 1 + 1 = T := by omega
  refine ⟨okTrace 1 (T-1), ?_, ?_⟩
  · have h := fetchPages_pagesOracle T rs (T-1) 1 0 fuel [] (by omega) (by omega)
    rw [fetch_pcode, h, List.nil_append, segConcat_eq_flatMap, hT1,
      ← List.range_eq_range']
  · rw [requestsOf_okTrace, hT1]

/-- Witness for C3 at `T = 3`, three singleton pages. -/
theorem C3_witness :
    ∃ tr, fetch_pcode (pagesOracle 3 (fun j => [j])) 3
        = some (.ok (tr, 3, (List.range 3).flatMap (fun j => [j]))) ∧
      requestsOf tr = List.range' 1 3 :=
  C3_pagination 3 3 (fun j => [j]) (by decide) (by decide)

/-! ## C4: transient errors retried with backoff, bounded budget -/

theorem transient_attemptOnce {α : Type} {r : RawResponse α}
    (h : transient r = true) (acc : List α) (page : Nat) :
    attemptOnce r acc page = .ok .retry ∨ ∃ e, attemptOnce r acc page = .error e := by
  cases r with
  | failure => exact Or.inr ⟨.transport, rfl⟩
  | http s body =>
    by_cases hs : s = 200
    · cases body with
      | error u => exact Or.inr ⟨.parse, by simp [attemptOnce, hs]⟩
      | ok b => simp [transient, hs] at h
    · simp [transient, hs] at h
      left
      simp [attemptOnce, hs, h]

theorem tryPage_transient {α : Type} {oracle : Nat → RawResponse α}
    {acc : List α} {page : Nat} (n attempt i : Nat)
    (h : transient (oracle i) = true) :
    tryPage oracle acc page (n+1) attempt i
      = (.request page :: .backoff (2 ^ attempt + 1)
            :: (tryPage oracle acc page n (attempt+1) (i+1)).1,
         (tryPage oracle acc page n (attempt+1) (i+1)).2.1 + 1,
         (tryPage oracle acc page n (attempt+1) (i+1)).2.2) := by
  rcases transient_attemptOnce h acc page with hr | ⟨e, hr⟩ <;>
  · rcases htp : tryPage oracle acc page n (attempt+1) (i+1) with ⟨t, m, s⟩
    simp [tryPage, hr, htp]

/-- Four transient responses in a row exhaust the page's retry budget:
the same page is requested four times, each failed attempt backs off
`2^attempt + 1` seconds, and the loop gives up. -/
theorem tryPage_exhaust {α : Type} (oracle : Nat → RawResponse α)
    (acc : List α) (page i : Nat)
    (h : ∀ j, j < retryBudget → transient (oracle (i+j)) = true) :
    tryPage oracle acc page retryBudget 0 i
      = ([.request page, .backoff 2, .request page, .backoff 3,
          .request page, .backoff 5, .request page, .backoff 9], 4, .giveUp) := by
  have h0 : transient (oracle i) = true := by simpa using h 0 (by decide)
  have h1 : transient (oracle (i+1)) = true := h 1 (by decide)
  have h2 : transient (oracle (i+2)) = true := h 2 (by decide)
  have h3 : transient (oracle (i+3)) = true := h 3 (by decide)
  rw [show retryBudget = 3 + 1 from rfl]
  rw [tryPage_transient 3 0 i h0]
  rw [show (3 : Nat) = 2 + 1 from rfl]
  rw [tryPage_transient 2 1 (i+1) h1]
  rw [show (2 : Nat) = 1 + 1 from rfl]
  rw [tryPage_transient 1 2 (i+1+1) (by simpa using h2)]
  rw [show (1 : Nat) = 0 + 1 from rfl]
  rw [tryPage_transient 0 3 (i+1+1+1) (by simpa using h3)]
  simp [tryPage]

/-- **C4**: on HTTP 429 / 5xx / transport failure the fetcher retries the
same page with backoff `2^attempt + 1`, up to 4 attempts per page; if all
4 attempts of a page fail it terminates the key early and returns the
partial collection accumulated before that page, without raising.  The
final conjunct exercises the per-page reset of the budget: with 3 failures
before each of two successful pages, both pages are fetched (8 requests)
and both pages' records are returned. -/
theorem C4_retry_backoff {α : Type} (oracle : Nat → RawResponse α)
    (i page fuel : Nat) (acc : List α)
    (h : ∀ j, j < retryBudget → transient (oracle (i+j)) = true) :
    retryBudget = 4 ∧
    fetchPages oracle (fuel+1) i page acc
      = some (.ok ([.throttle, .request page, .backoff 2, .request page,
                    .backoff 3, .request page, .backoff 5, .request page,
                    .backoff 9], 4, acc)) ∧
    fetch_pcode resetOracle 2
      = some (.ok ([.throttle, .request 1, .backoff 2, .request 1, .backoff 3,
                    .request 1, .backoff 5, .request 1,
                    .throttle, .request 2, .backoff 2, .request 2, .backoff 3,
                    .request 2, .backoff 5, .request 2], 8, [10, 20])) := by
  refine ⟨rfl, ?_, by decide⟩
  have htp := tryPage_exhaust oracle acc page i h
  simp [fetchPages, htp]

/-- Witness for C4 with an all-429 oracle. -/
theorem C4_witness :
    fetchPages (fun _ => (RawResponse.http 429 (.error ()) : RawResponse Nat))
        1 0 1 [5]
      = some (.ok ([.throttle, .request 1, .backoff 2, .request 1, .backoff 3,
                    .request 1, .backoff 5, .request 1, .backoff 9], 4, [5])) :=
  (C4_retry_backoff (fun _ => RawResponse.http 429 (.error ())) 0 1 0 [5]
    (by decide)).2.1

/-! ## C5: termination (corrected) -/

theorem advOracle_no_fuel :
    ∀ (fuel i : Nat) (acc : List Nat),
      fetchPages advOracle fuel i (i+1) acc = none := by
  intro fuel
  induction fuel with
  | zero => intro i acc; simp [fetchPages]
  | succ f ih =>
    intro i acc
    have hao : attemptOnce (advOracle i) acc (i+1) = .ok (.advance acc) := by
      rw [show advOracle i = .http 200 (.ok ⟨some [], some ((i : Int) + 2)⟩) from rfl,
        attemptOnce_200_some]
      have hlt : ((i+1 : Nat) : Int) < (i : Int) + 2 := by omega
      simp [hlt]
    have htp : tryPage advOracle acc (i+1) retryBudget 0 i
        = ([.request (i+1)], 1, .advance acc) := by
      rw [show retryBudget = 3 + 1 from rfl]
      simp [tryPage, hao]
    have hrec := ih (i+1) acc
    simp [fetchPages, htp, hrec]

/-- **C5** counterexample: against `advOracle` the fetch never finishes,
whatever the number of page iterations allowed — the retry budget caps
attempts per page but nothing caps the number of pages, so the claim's
"for every sequence of responses" quantification fails. -/
theorem C5_cex : ¬ ∃ fuel, (fetch_pcode advOracle fuel).isSome := by
  rintro ⟨fuel, h⟩
  rw [fetch_pcode, show (1 : Nat) = 0 + 1 from rfl, advOracle_no_fuel fuel 0 []] at h
  simp at h

theorem attemptOnce_advance_total {α : Type} {r : RawResponse α}
    {acc acc2 : List α} {page : Nat}
    (h : attemptOnce r acc page = .ok (.advance acc2)) :
    (page : Int) < reportedTotal r := by
  cases r with
  | failure => simp [attemptOnce] at h
  | http s body =>
    by_cases hs : s = 200
    · cases body with
      | error u => simp [attemptOnce, hs] at h
      | ok b =>
        by_cases hlt : (page : Int) < b.totalNumPages.getD 0
        · subst hs; simpa [reportedTotal] using hlt
        · simp [attemptOnce, hs, hlt] at h
    · by_cases htr : s = 429 ∨ 500 ≤ s <;> simp [attemptOnce, hs, htr] at h

theorem tryPage_advance_total {α : Type} (oracle : Nat → RawResponse α)
    (acc : List α) (page : Nat) :
    ∀ (n attempt i : Nat) (t : List Ev) (m : Nat) (acc2 : List α),
      tryPage oracle acc page n attempt i = (t, m, .advance acc2) →
      ∃ k, (page : Int) < reportedTotal (oracle k) := by
  intro n
  induction n with
  | zero => intro attempt i t m acc2 h; simp [tryPage] at h
  | succ n ih =>
    intro attempt i t m acc2 h
    simp only [tryPage] at h
    cases hao : attemptOnce (oracle i) acc page with
    | ok st =>
      cases st with
      | advance a =>
        exact ⟨i, attemptOnce_advance_total hao⟩
      | finish a => rw [hao] at h; simp at h
      | retry =>
        rw [hao] at h
        rcases htp : tryPage oracle acc page n (attempt+1) (i+1) with ⟨t', m', s'⟩
        rw [htp] at h
        simp at h
        obtain ⟨-, -, hs⟩ := h
        exact ih (attempt+1) (i+1) t' m' acc2 (by rw [htp, hs])
    | error e =>
      rw [hao] at h
      rcases htp : tryPage oracle acc page n (attempt+1) (i+1) with ⟨t', m', s'⟩
      rw [htp] at h
      simp at h
      obtain ⟨-, -, hs⟩ := h
      exact ih (attempt+1) (i+1) t' m' acc2 (by rw [htp, hs])

theorem fetchPages_bounded_total_isSome {α : Type}
    (oracle : Nat → RawResponse α) (B : Nat)
    (hB : ∀ k, reportedTotal (oracle k) ≤ (B : Int)) :
    ∀ (fuel page i : Nat) (acc : List α), 1 ≤ fuel → B + 1 ≤ page + fuel →
      (fetchPages oracle fuel i page acc).isSome := by
  intro fuel
  induction fuel with
  | zero => intro page i acc h1 _; omega
  | succ f ih =>
    intro page i acc h1 h2
    rcases htp : tryPage oracle acc page retryBudget 0 i with ⟨t, m, pr⟩
    cases pr with
    | advance acc2 =>
      obtain ⟨k, hk⟩ := tryPage_advance_total oracle acc page retryBudget 0 i t m acc2 htp
      have hpB : page < B := by
        have := hB k
        omega
      have hrec := ih (page+1) (i + m) acc2 (by omega) (by omega)
      cases hsome : fetchPages oracle f (i + m) (page+1) acc2 with
      | none => rw [hsome] at hrec; simp at hrec
      | some r =>
        cases r with
        | error e => simp [fetchPages, htp, hsome]
        | ok v => simp [fetchPages, htp, hsome]
    | finish acc2 => simp [fetchPages, htp]
    | giveUp => simp [fetchPages, htp]

/-- **C5** amended: a key's fetch terminates whenever the totals the API
reports are bounded: if every response declares `totalNumPages ≤ B`, the
fetch completes within `B + 1` page iterations (each page consuming at
most the 4-attempt retry budget).  Unbounded reported totals defeat
termination (see the counterexample), so the original "for every sequence
of responses" is weakened to bounded-total sequences. -/
theorem C5_bounded_terminates {α : Type} (oracle : Nat → RawResponse α)
    (B fuel : Nat) (hB : ∀ k, reportedTotal (oracle k) ≤ (B : Int))
    (hfuel : B + 1 ≤ fuel) :
    (fetch_pcode oracle fuel).isSome := by
  rw [fetch_pcode]
  exact fetchPages_bounded_total_isSome oracle B hB fuel 1 0 [] (by omega) (by omega)

/-- Witness for C5's amended statement: a single-page oracle, bound 1. -/
theorem C5_witness :
    (fetch_pcode (fun _ => (RawResponse.http 200 (.ok ⟨some [], some 1⟩)
        : RawResponse Nat)) 2).isSome :=
  C5_bounded_terminates (fun _ => RawResponse.http 200 (.ok ⟨some [], some 1⟩))
    1 2 (fun _ => by simp [reportedTotal]) (by decide)

/-! ## C9: key generation (corrected) -/

theorem dval_digitChar : ∀ m, m < 10 → dval (Nat.digitChar m) = m := by decide

theorem digitChar_isDigit : ∀ m, m < 10 → (Nat.digitChar m).isDigit = true := by
  decide

theorem foldl_sval_replicate_zero (k : Nat) :
    List.foldl (fun a c => 10 * a + dval c) 0 (List.replicate k '0') = 0 := by
  induction k with
  | zero => rfl
  | succ k ih => simpa [List.replicate_succ, dval] using ih

theorem sval_replicate_zero_append (k : Nat) (xs : List Char) :
    sval (List.replicate k '0' ++ xs) = sval xs := by
  simp [sval, List.foldl_append, foldl_sval_replicate_zero]

theorem toDigitsCore_acc (b : Nat) :
    ∀ (f n : Nat) (acc : List Char),
      Nat.toDigitsCore b f n acc = Nat.toDigitsCore b f n [] ++ acc := by
  intro f
  induction f with
  | zero => intro n acc; simp [Nat.toDigitsCore]
  | succ g ih =>
    intro n acc
    simp only [Nat.toDigitsCore]
    by_cases h : n / b = 0
    · simp [h]
    · simp only [h, if_neg, if_false]
      rw [ih (n / b) (Nat.digitChar (n % b) :: acc),
        ih (n / b) [Nat.digitChar (n % b)]]
      simp

theorem sval_toDigitsCore :
    ∀ (f n : Nat), n < f → sval (Nat.toDigitsCore 10 f n []) = n := by
  intro f
  induction f with
  | zero => intro n h; omega
  | succ g ih =>
    intro n h
    simp only [Nat.toDigitsCore]
    by_cases hz : n / 10 = 0
    · have hn : n < 10 := by omega
      simp only [hz, if_pos]
      simp [sval, dval_digitChar n (by omega), Nat.mod_eq_of_lt hn]
    · simp only [hz, if_neg, if_false]
      rw [toDigitsCore_acc 10 g (n / 10) [Nat.digitChar (n % 10)]]
      have hrec : sval (Nat.toDigitsCore 10 g (n / 10) []) = n / 10 :=
        ih (n / 10) (by omega)
      simp only [sval, List.foldl_append] at *
      rw [hrec]
      simp [dval_digitChar (n % 10) (by omega)]
      omega

theorem sval_repr (n : Nat) : sval (Nat.repr n).data = n := by
  have : (Nat.repr n).data = Nat.toDigitsCore 10 (n+1) n [] := rfl
  rw [this]
  exact sval_toDigitsCore (n+1) n (Nat.lt_succ_self n)

theorem sval_padded_repr (k n : Nat) :
    sval (List.replicate k '0' ++ (Nat.repr n).data) = n := by
  rw [sval_replicate_zero_append, sval_repr]

theorem toDigitsCore_all_digits :
    ∀ (f n : Nat) (acc : List Char), (∀ c ∈ acc, c.isDigit = true) →
      ∀ c ∈ Nat.toDigitsCore 10 f n acc, c.isDigit = true := by
  intro f
  induction f with
  | zero => intro n acc hacc; simpa [Nat.toDigitsCore] using hacc
  | succ g ih =>
    intro n acc hacc
    have hcons : ∀ c ∈ Nat.digitChar (n % 10) :: acc, c.isDigit = true := by
      intro c hc
      rcases List.mem_cons.mp hc with rfl | hc
      · exact digitChar_isDigit (n % 10) (by omega)
      · exact hacc c hc
    simp only [Nat.toDigitsCore]
    by_cases hz : n / 10 = 0
    · simpa [hz] using hcons
    · simp only [hz, if_neg, if_false]
      exact ih (n / 10) (Nat.digitChar (n % 10) :: acc) hcons

theorem repr_all_digits (n : Nat) :
    ∀ c ∈ (Nat.repr n).data, c.isDigit = true := by
  have : (Nat.repr n).data = Nat.toDigitsCore 10 (n+1) n [] := rfl
  rw [this]
  exact toDigitsCore_all_digits (n+1) n [] (by simp)

theorem format06_nonneg_data (p : Int) (h : 0 ≤ p) :
    (format06 p).data
      = List.replicate (6 - (Nat.repr p.toNat).length) '0'
          ++ (Nat.repr p.toNat).data := by
  simp [format06, not_lt.mpr h, String.data_append]

theorem format06_neg_data (p : Int) (h : p < 0) :
    (format06 p).data
      = '-' :: (List.replicate (5 - (Nat.repr p.natAbs).length) '0'
          ++ (Nat.repr p.natAbs).data) := by
  simp [format06, h, String.data_append]

theorem sval_format06 (p : Int) (h : 0 ≤ p) :
    sval (format06 p).data = p.toNat := by
  rw [format06_nonneg_data p h, sval_padded_repr]

theorem minus_not_mem_format06 (p : Int) (h : 0 ≤ p) :
    '-' ∉ (format06 p).data := by
  rw [format06_nonneg_data p h]
  intro hmem
  rcases List.mem_append.mp hmem with hz | hd
  · have := List.eq_of_mem_replicate hz
    simp at this
  · have := repr_all_digits p.toNat '-' hd
    simp [Char.isDigit] at this

theorem format06_injective : Function.Injective format06 := by
  intro p q h
  rcases le_or_lt 0 p with hp | hp <;> rcases le_or_lt 0 q with hq | hq
  · have hv := congrArg (fun s => sval s.data) h
    simp only [sval_format06 p hp, sval_format06 q hq] at hv
    omega
  · exfalso
    apply minus_not_mem_format06 p hp
    have hd := congrArg String.data h
    rw [hd, format06_neg_data q hq]
    exact List.mem_cons_self _ _
  · exfalso
    apply minus_not_mem_format06 q hq
    have hd := congrArg String.data h.symm
    rw [hd, format06_neg_data p hp]
    exact List.mem_cons_self _ _
  · have hd := congrArg String.data h
    rw [format06_neg_data p hp, format06_neg_data q hq] at hd
    have htail := List.tail_eq_of_cons_eq hd
    have hv := congrArg sval htail
    rw [sval_padded_repr, sval_padded_repr] at hv
    omega

theorem sixDigitKey_format06 (p : Int) (h0 : 0 ≤ p) (h6 : p < 1000000) :
    sixDigitKey (format06 p) = true := by
  have hpow : (10 : Nat) ^ 6 = 1000000 := by norm_num
  have hlen : (Nat.repr p.toNat).length ≤ 6 :=
    Nat.repr_length p.toNat 6 (by norm_num) (by rw [hpow]; omega)
  have hlend : (Nat.repr p.toNat).data.length ≤ 6 := hlen
  have hdata := format06_nonneg_data p h0
  have hsd : (Nat.repr p.toNat).length = (Nat.repr p.toNat).data.length := rfl
  have hlen6 : (format06 p).data.length = 6 := by
    rw [hdata]
    simp only [List.length_append, List.length_replicate]
    omega
  have hdig : ∀ c ∈ (format06 p).data, c.isDigit = true := by
    rw [hdata]
    intro c hc
    rcases List.mem_append.mp hc with hz | hd
    · rw [List.eq_of_mem_replicate hz]
      decide
    · exact repr_all_digits p.toNat c hd
  simp only [sixDigitKey, Bool.and_eq_true, decide_eq_true_eq, List.all_eq_true,
    String.length]
  exact ⟨hlen6, fun c hc => hdig c hc⟩

theorem pcodes_get (start stop : Int) (j : Nat)
    (hj : j < (pcodes start stop).length) :
    (pcodes start stop).get ⟨j, hj⟩ = format06 (start + j) := by
  simp only [pcodes, intRange, List.map_map, List.get_eq_getElem,
    List.getElem_map, List.getElem_range, Function.comp_apply]

theorem mem_pcodes (start stop k : Int) (h1 : start ≤ k) (h2 : k ≤ stop) :
    format06 k ∈ pcodes start stop := by
  have hx : k ∈ intRange start (stop + 1) := by
    simp only [intRange, List.mem_map, List.mem_range]
    exact ⟨(k - start).toNat, by omega, by omega⟩
  exact List.mem_map.mpr ⟨k, hx, rfl⟩

/-- **C9** counterexample: for `start = end = 1000000` (a pair with
`start ≤ end`), the single generated key is 7 characters long, so "every
key is zero-padded to exactly 6 digits" fails for ranges reaching past
999999. -/
theorem C9_cex :
    pcodes 1000000 1000000 = ["1000000"] ∧ sixDigitKey "1000000" = false := by
  decide

/-- **C9** amended: for every `start ≤ end` the key list has exactly one
key per integer of the closed range, in order (`j`-th key is the formatted
`start + j`), every integer of the range contributes its key, and no key
repeats; every key is exactly six decimal digits provided the range stays
inside `[0, 999999]` (outside, keys are longer than 6 characters or carry
a sign, as the counterexample shows). -/
theorem C9_keys (start stop : Int) (h : start ≤ stop) :
    (pcodes start stop).length = (stop - start + 1).toNat ∧
    (∀ (j : Nat) (hj : j < (pcodes start stop).length),
        (pcodes start stop).get ⟨j, hj⟩ = format06 (start + j)) ∧
    (∀ k : Int, start ≤ k → k ≤ stop → format06 k ∈ pcodes start stop) ∧
    (pcodes start stop).Nodup ∧
    (0 ≤ start → stop < 1000000 →
      ∀ s ∈ pcodes start stop, sixDigitKey s = true) := by
  refine ⟨?_, pcodes_get start stop, mem_pcodes start stop, ?_, ?_⟩
  · simp only [pcodes, intRange, List.length_map, List.length_range]
    omega
  · simp only [pcodes, intRange]
    exact ((List.nodup_range _).map (fun a b hab => by simpa using hab)).map
      format06_injective
  · intro h0 h6 s hs
    simp only [pcodes, intRange, List.map_map, List.mem_map,
      List.mem_range] at hs
    obtain ⟨j, hj, rfl⟩ := hs
    exact sixDigitKey_format06 (start + j) (by omega) (by omega)

/-- Witness for C9's amended statement on the range `[0, 2]`. -/
theorem C9_witness :
    (pcodes 0 2).length = ((2 : Int) - 0 + 1).toNat ∧
    format06 1 ∈ pcodes 0 2 ∧
    (pcodes 0 2).Nodup :=
  ⟨(C9_keys 0 2 (by decide)).1,
   (C9_keys 0 2 (by decide)).2.2.1 1 (by decide) (by decide),
   (C9_keys 0 2 (by decide)).2.2.2.1⟩
